import Mathlib

/-!
Verification of proxy-go, a TCP relay with an IP allowlist.

A shallow embedding of `main.go` and the properties of its configuration
loading, its authorizer (`isIPAllowed`), its relay session
(`handleConnection`) and its listener loop (`Start`).

Go strings are modelled as lists of Unicode characters (`GoString`); the
standard-library functions the program calls (`strings.Split`,
`strings.TrimSpace`, `strconv.Atoi`, `io.Copy`) are modelled from their
documented behaviour, everything else follows `main.go` line by line.
-/

namespace ProxyGo

/-! ## Strings and the standard-library functions used by `loadEnvConfig` -/

/-- A Go string, as its sequence of characters. -/
abbrev GoString := List Char

/-- The white space of `unicode.IsSpace`: the six ASCII space characters,
U+0085, U+00A0 and the ranges of the `White_Space` table of the Go `unicode`
package. -/
def isSpace (c : Char) : Bool :=
  let n := c.toNat
  n == 0x09 || n == 0x0A || n == 0x0B || n == 0x0C || n == 0x0D || n == 0x20 ||
  n == 0x85 || n == 0xA0 || n == 0x1680 || (0x2000 ≤ n && n ≤ 0x200A) ||
  n == 0x2028 || n == 0x2029 || n == 0x202F || n == 0x205F || n == 0x3000

/-- The function `strings.TrimSpace`: the string without its leading and
trailing white space. -/
def TrimSpace (s : GoString) : GoString :=
  ((s.dropWhile isSpace).reverse.dropWhile isSpace).reverse

/-- The function `strings.Split(s, ",")`: the substrings of `s` between
commas. The result has one more element than `s` has commas; for a string
without a comma it is `[s]`. -/
def Split : GoString → List GoString
  | [] => [[]]
  | c :: cs =>
    if c = ',' then [] :: Split cs
    else
      match Split cs with
      | [] => [[c]]
      | piece :: rest => (c :: piece) :: rest

/-- The size of Go's `int` on the 64-bit platforms. -/
def intSize : Nat := 64

/-- The digits loop of `strconv.Atoi` / `strconv.ParseUint` in base 10: the
value of a string of decimal digits, `none` when a character is not a
digit. -/
def parseDigits : GoString → Nat → Option Nat
  | [], acc => some acc
  | ch :: rest, acc =>
    if '0' ≤ ch ∧ ch ≤ '9' then parseDigits rest (acc * 10 + (ch.toNat - '0'.toNat))
    else none

/-- The function `strconv.Atoi`: an optional sign followed by at least one
decimal digit, with a value that fits `int`; `none` stands for the error
result (`ErrSyntax` or `ErrRange`). -/
def Atoi (s : GoString) : Option Int :=
  match s with
  | [] => none
  | c :: cs =>
    let neg := c = '-'
    let digits := if c = '-' ∨ c = '+' then cs else c :: cs
    match digits with
    | [] => none
    | d :: ds =>
      match parseDigits (d :: ds) 0 with
      | none => none
      | some un =>
        if neg then
          if un ≤ 2 ^ (intSize - 1) then some (-(un : Int)) else none
        else
          if un < 2 ^ (intSize - 1) then some (un : Int) else none

/-! ## The proxy configuration -/

/-- The struct `TCPProxy` (the logger is left out: it holds no data). -/
structure TCPProxy where
  TargetHost : GoString
  TargetPort : Int
  AllowedIPs : List GoString
  deriving DecidableEq, Repr

/-- The pattern `n, err := strconv.Atoi(s); if err != nil || n == 0 { n = dflt }`
of `loadEnvConfig` and `main`. -/
def portOrDefault (s : GoString) (dflt : Int) : Int :=
  match Atoi s with
  | none => dflt
  | some n => if n = 0 then dflt else n

/-- The allowlist part of `loadEnvConfig`: a `nil` slice for the empty string,
otherwise the comma-separated pieces, each one trimmed in place. -/
def loadAllowedIPs (allowedIPsStr : GoString) : List GoString :=
  if allowedIPsStr ≠ [] then (Split allowedIPsStr).map TrimSpace else []

/-- The function `loadEnvConfig`; `getenv` is `os.Getenv`, which gives the empty
string for an unset variable. -/
def loadEnvConfig (getenv : String → GoString) : TCPProxy :=
  let targetHost := getenv "TARGET_HOST"
  let targetHost := if targetHost = [] then "127.0.0.1".toList else targetHost
  let targetPort := portOrDefault (getenv "TARGET_PORT") 9000
  let allowedIPs := loadAllowedIPs (getenv "ALLOWED_IPS")
  { TargetHost := targetHost, TargetPort := targetPort, AllowedIPs := allowedIPs }

/-- The listen port computed in `main` (and, for the log line, in
`loadEnvConfig`). -/
def listenPortOf (getenv : String → GoString) : Int :=
  portOrDefault (getenv "LISTEN_PORT") 9001

/-- The loop of `isIPAllowed` over the allowlist. -/
def isIPAllowed.loop (clientIP : GoString) : List GoString → Bool
  | [] => false
  | allowedIP :: rest => if clientIP = allowedIP then true else isIPAllowed.loop clientIP rest

/-- The method `TCPProxy.isIPAllowed`. -/
def isIPAllowed (p : TCPProxy) (clientIP : GoString) : Bool :=
  if p.AllowedIPs.length = 0 then true
  else isIPAllowed.loop clientIP p.AllowedIPs


/-! ## Connections, events and the environment of a session -/

/-- A byte of the relayed payload. -/
abbrev Byte := Nat

/-- The two connections of a session. -/
inductive ConnId where
  | client
  | target
  deriving DecidableEq, Repr

/-- The two copy goroutines of a session: client to target (the first `go`
statement) and target to client (the second). -/
inductive Dir where
  | c2t
  | t2c
  deriving DecidableEq, Repr

/-- The connection a copy goroutine writes to: `io.Copy(targetConn, clientConn)`
for the first one, `io.Copy(clientConn, targetConn)` for the second. -/
def Dir.dst : Dir → ConnId
  | .c2t => .target
  | .t2c => .client

/-- What a copy goroutine does, in its program order. `panic` is the failed
assertion `clientConn.(*net.TCPConn)`: the goroutine's deferred `wg.Done()`
runs and the Go runtime terminates the process. -/
inductive GEvent where
  | read (data : List Byte)
  | write (data : List Byte)
  | copyReturned
  | closeWrite (c : ConnId)
  | done
  | panic
  deriving DecidableEq, Repr

/-- The observable events of a session. `panic` is the failed assertion
`RemoteAddr().(*net.TCPAddr)`; `waitReturned` is the return of `wg.Wait()`;
`close` is a full `Close()`. -/
inductive Event where
  | panic
  | logBlocked (clientIP : GoString)
  | logAccepted (clientIP : GoString)
  | dial (targetAddr : GoString)
  | logDialFailed (cause : GoString)
  | g (d : Dir) (e : GEvent)
  | waitReturned
  | close (c : ConnId)
  deriving DecidableEq, Repr

/-- The dynamic type of `clientConn.RemoteAddr()`: a `*net.TCPAddr` (given by
the string form of its IP, `IP.String()`) or anything else. -/
inductive Addr where
  | tcp (ip : GoString)
  | other
  deriving DecidableEq, Repr

/-- The client connection handed to `handleConnection`, as far as the code
looks at it: its remote address and whether its dynamic type is
`*net.TCPConn`. -/
structure Conn where
  RemoteAddr : Addr
  isTCPConn : Bool
  deriving DecidableEq, Repr

/-- The error of a `Read`: `io.EOF` or any other error. -/
inductive ReadErr where
  | eof
  | failure
  deriving DecidableEq, Repr

/-- The result `(n, err)` of one `Read`: the bytes read and the error, if
any. -/
structure ReadRes where
  data : List Byte
  err : Option ReadErr
  deriving DecidableEq, Repr

/-- The result of one `Write` of `nr` bytes: `ok` is `(nr, nil)`,
`fault nw failed` is `(nw, err)` with `err != nil` iff `failed`, and
`blocks` is a call that never returns. -/
inductive WriteRes where
  | ok
  | fault (nw : Int) (failed : Bool)
  | blocks
  deriving DecidableEq, Repr

/-- What the two ends do during one `io.Copy`: the results of the successive
reads of the source and of the successive writes to the destination. A read
past the end of `reads` never returns (an idle peer); a write past the end
of `writes` succeeds in full. -/
structure CopyEnv where
  reads : List ReadRes
  writes : List WriteRes
  deriving DecidableEq, Repr

/-- The result of `net.DialTimeout`: a connection, or an error (a timeout
included) with its text. -/
inductive DialRes where
  | connected
  | failed (cause : GoString)
  deriving DecidableEq, Repr

/-- The environment of one session: the result of the dial, what the peers do
during the two copies, and the scheduler's choices between the two copy
goroutines (`true`: the client-to-target goroutine takes the next step). -/
structure SessionEnv where
  dial : DialRes
  c2t : CopyEnv
  t2c : CopyEnv
  sched : List Bool
  deriving DecidableEq, Repr

/-- How an execution of `handleConnection` ends: it returns, it panics (the
panic leaves the function), the process is terminated by a panic in a copy
goroutine, or it stays blocked in `wg.Wait()` for ever. -/
inductive Outcome where
  | returned
  | panicked
  | crashed
  | blocked
  deriving DecidableEq, Repr

/-- An execution of `handleConnection`. -/
structure Run where
  trace : List Event
  outcome : Outcome
  deriving DecidableEq, Repr

/-! ## The relay session -/

/-- The result of the next `Write` and the rest of the script. -/
def nextWrite : List WriteRes → WriteRes × List WriteRes
  | [] => (.ok, [])
  | w :: ws => (w, ws)

/-- The loop of `io.Copy` (`io.copyBuffer`): read, write what was read, stop
at a write error, a short write or a read error (`io.EOF` included). Gives
the events of the copy and whether it returns. -/
def ioCopy : List ReadRes → List WriteRes → List GEvent × Bool
  | [], _ => ([], false)
  | r :: rs, ws =>
    let nr : Int := r.data.length
    if 0 < nr then
      match nextWrite ws with
      | (.blocks, _) => ([.read r.data], false)
      | (.ok, ws') =>
        if r.err.isSome then ([.read r.data, .write r.data], true)
        else
          let rest := ioCopy rs ws'
          (.read r.data :: .write r.data :: rest.1, rest.2)
      | (.fault nw failed, ws') =>
        let wrote := GEvent.write (r.data.take nw.toNat)
        if nw < 0 ∨ nr < nw then ([.read r.data, wrote], true)
        else if failed then ([.read r.data, wrote], true)
        else if nr ≠ nw then ([.read r.data, wrote], true)
        else if r.err.isSome then ([.read r.data, wrote], true)
        else
          let rest := ioCopy rs ws'
          (.read r.data :: wrote :: rest.1, rest.2)
    else
      if r.err.isSome then ([.read r.data], true)
      else
        let rest := ioCopy rs ws
        (.read r.data :: rest.1, rest.2)

/-- A copy goroutine: `defer wg.Done()`, `io.Copy(dst, src)`, then
`dst.(*net.TCPConn).CloseWrite()`. The assertion panics when the destination
is not a `*net.TCPConn`. -/
def copyGoroutine (d : Dir) (dstIsTCPConn : Bool) (e : CopyEnv) : List GEvent :=
  let c := ioCopy e.reads e.writes
  if c.2 then
    if dstIsTCPConn then c.1 ++ [.copyReturned, .closeWrite d.dst, .done]
    else c.1 ++ [.copyReturned, .panic]
  else c.1

/-- An interleaving of the steps of two goroutines, chosen by the scheduler;
when the choices run out the first goroutine runs before the second. -/
def merge {α : Type} : List Bool → List α → List α → List α
  | _, [], ys => ys
  | _, x :: xs, [] => x :: xs
  | [], x :: xs, y :: ys => (x :: xs) ++ (y :: ys)
  | b :: bs, x :: xs, y :: ys =>
    if b then x :: merge bs xs (y :: ys) else y :: merge bs (x :: xs) ys

/-- Whether an event is the panic of a copy goroutine. -/
def isGPanic : Event → Bool
  | .g _ .panic => true
  | _ => false

/-- Whether an event is a `wg.Done()`. -/
def isDone : Event → Bool
  | .g _ .done => true
  | _ => false

/-- The events up to and including the first panic of a copy goroutine: the
process ends there. -/
def cutAtPanic : List Event → List Event
  | [] => []
  | e :: es => if isGPanic e then [e] else e :: cutAtPanic es

/-- The counter of the `sync.WaitGroup` after `wg.Add(2)` and the `wg.Done()`
calls of the given events. -/
def wgCounter (body : List Event) : Nat :=
  2 - (body.filter isDone).length

/-- The string `fmt.Sprintf("%s:%d", p.TargetHost, p.TargetPort)`. -/
def targetAddr (p : TCPProxy) : GoString :=
  p.TargetHost ++ [':'] ++ (toString p.TargetPort).toList

/-- The two `go` statements of `handleConnection`: the steps of the two copy
goroutines, interleaved by the scheduler. The target connection comes from
`net.DialTimeout("tcp", ...)` and is a `*net.TCPConn`; the client connection
is one only if `clientConn.isTCPConn`. -/
def runCopies (clientConn : Conn) (env : SessionEnv) : List Event :=
  let g1 := (copyGoroutine .c2t true env.c2t).map (Event.g .c2t)
  let g2 := (copyGoroutine .t2c clientConn.isTCPConn env.t2c).map (Event.g .t2c)
  merge env.sched g1 g2

/-- The method `TCPProxy.handleConnection`. The deferred calls run when the
function returns or panics, last registered first. -/
def handleConnection (p : TCPProxy) (clientConn : Conn) (env : SessionEnv) : Run :=
  -- defer clientConn.Close()
  match clientConn.RemoteAddr with
  | .other =>
    -- the assertion RemoteAddr().(*net.TCPAddr) panics
    { trace := [.panic, .close .client], outcome := .panicked }
  | .tcp clientIP =>
    if !isIPAllowed p clientIP then
      { trace := [.logBlocked clientIP, .close .client], outcome := .returned }
    else
      let pre := [Event.logAccepted clientIP, Event.dial (targetAddr p)]
      match env.dial with
      | .failed cause =>
        { trace := pre ++ [.logDialFailed cause, .close .client], outcome := .returned }
      | .connected =>
        -- defer targetConn.Close(); wg.Add(2); go ...; go ...; wg.Wait()
        let body := runCopies clientConn env
        if body.any isGPanic then
          { trace := pre ++ cutAtPanic body, outcome := .crashed }
        else if wgCounter body = 0 then
          { trace := pre ++ body ++ [.waitReturned, .close .target, .close .client],
            outcome := .returned }
        else
          { trace := pre ++ body, outcome := .blocked }

/-! ## The listener loop -/

/-- The result of `net.Listen`. -/
inductive ListenRes where
  | bound
  | failed (cause : GoString)
  deriving DecidableEq, Repr

/-- The result of one `listener.Accept()`. -/
inductive AcceptRes where
  | conn (c : Conn)
  | err (cause : GoString)
  deriving DecidableEq, Repr

/-- The observable events of `Start`: the `net.Listen` call, the log line
after a successful bind, each `Accept` call, the log line of an accept error
and the `go p.handleConnection(clientConn)` statement. -/
inductive StartEvent where
  | listen (port : Int)
  | logListening (port : Int)
  | accept
  | logAcceptError (cause : GoString)
  | spawn (c : Conn)
  deriving DecidableEq, Repr

/-- Where `Start` is after the accepts seen so far: it has returned an error,
or it is in its loop, at the next `Accept`. -/
inductive StartState where
  | returned (err : GoString)
  | accepting
  deriving DecidableEq, Repr

/-- An execution of `Start` over the accepts seen so far. -/
structure StartRun where
  trace : List StartEvent
  state : StartState
  deriving DecidableEq, Repr

/-- The `for` loop of `Start` over the results of the successive accepts. -/
def Start.loop : List AcceptRes → List StartEvent
  | [] => []
  | .err cause :: rest => .accept :: .logAcceptError cause :: Start.loop rest
  | .conn c :: rest => .accept :: .spawn c :: Start.loop rest

/-- The method `TCPProxy.Start`. -/
def Start (_p : TCPProxy) (listenPort : Int) (listen : ListenRes)
    (accepts : List AcceptRes) : StartRun :=
  match listen with
  | .failed cause =>
    { trace := [.listen listenPort],
      state := .returned ("failed to start listener: ".toList ++ cause) }
  | .bound =>
    -- defer listener.Close(): never reached, the loop has no exit
    { trace := .listen listenPort :: .logListening listenPort :: Start.loop accepts,
      state := .accepting }

/-! ## Observations on the trace of a session -/

/-- The events of one copy goroutine in a trace, in their order. -/
def proj (d : Dir) (trace : List Event) : List GEvent :=
  trace.filterMap fun e =>
    match e with
    | .g d' ge => if d' = d then some ge else none
    | _ => none

/-- The bytes written by a copy goroutine, in the order of the writes. -/
def writtenBytes : List GEvent → List Byte
  | [] => []
  | .write data :: rest => data ++ writtenBytes rest
  | _ :: rest => writtenBytes rest

/-- The bytes a session wrote to the destination of one direction (to the
target for `c2t`, to the client for `t2c`). -/
def bytesWritten (d : Dir) (trace : List Event) : List Byte :=
  writtenBytes (proj d trace)

/-- Whether an event is a log line of the session. -/
def isLog : Event → Bool
  | .logBlocked _ => true
  | .logAccepted _ => true
  | .logDialFailed _ => true
  | _ => false

/-- Whether an event is a "blocked" log line. -/
def isBlockedLog : Event → Bool
  | .logBlocked _ => true
  | _ => false

/-- Whether an event is a dial attempt. -/
def isDial : Event → Bool
  | .dial _ => true
  | _ => false

/-- Whether an event belongs to a copy goroutine. -/
def isCopy : Event → Bool
  | .g _ _ => true
  | _ => false

/-- Whether an event of a copy goroutine is a read or a write of `io.Copy`. -/
def isReadWrite : GEvent → Bool
  | .read _ => true
  | .write _ => true
  | _ => false

/-- The script of a source that delivers the given chunks and then reports
end-of-input together with a last chunk (possibly empty), with no error. -/
def cleanReads (chunks : List (List Byte)) (last : List Byte) : List ReadRes :=
  chunks.map (fun c => { data := c, err := none }) ++ [{ data := last, err := some .eof }]

/-- What the peers do during the copy of one direction. -/
def SessionEnv.copy (env : SessionEnv) : Dir → CopyEnv
  | .c2t => env.c2t
  | .t2c => env.t2c

/-! ## Observations on the trace of the listener -/

/-- The number of `Accept` calls that returned. -/
def acceptCalls (trace : List StartEvent) : Nat :=
  (trace.filter fun e => e = .accept).length

/-- The causes of the accept errors that were logged, in order. -/
def loggedAcceptErrors (trace : List StartEvent) : List GoString :=
  trace.filterMap fun e =>
    match e with
    | .logAcceptError cause => some cause
    | _ => none

/-- The connections handed to a new session, in order. -/
def spawned (trace : List StartEvent) : List Conn :=
  trace.filterMap fun e =>
    match e with
    | .spawn c => some c
    | _ => none

/-- The causes of the failed accepts, in order. -/
def acceptErrors (accepts : List AcceptRes) : List GoString :=
  accepts.filterMap fun a =>
    match a with
    | .err cause => some cause
    | _ => none

/-- The connections of the successful accepts, in order. -/
def acceptedConns (accepts : List AcceptRes) : List Conn :=
  accepts.filterMap fun a =>
    match a with
    | .conn c => some c
    | _ => none

/-! ## Sample inputs -/

/-- An environment with the four settings of the program. -/
def mkGetenv (host tport ips lport : String) : String → GoString := fun name =>
  if name = "TARGET_HOST" then host.toList
  else if name = "TARGET_PORT" then tport.toList
  else if name = "ALLOWED_IPS" then ips.toList
  else if name = "LISTEN_PORT" then lport.toList
  else []

/-- The allowlist of the spec's scenario: only `10.0.0.5`. -/
def scenarioProxy : TCPProxy :=
  { TargetHost := "127.0.0.1".toList, TargetPort := 9000, AllowedIPs := ["10.0.0.5".toList] }

/-- A TCP client connection from the given IP. -/
def tcpClient (ip : String) : Conn :=
  { RemoteAddr := .tcp ip.toList, isTCPConn := true }

/-- A client connection of another transport (a Unix-domain socket, say): its
remote address is not a `*net.TCPAddr`. -/
def unixClient : Conn :=
  { RemoteAddr := .other, isTCPConn := false }

/-- A session where the client sends `[1, 2]` then `[3]` and closes, the target
answers `[7]` and closes, and the goroutines alternate. -/
def echoEnv : SessionEnv :=
  { dial := .connected,
    c2t := { reads := cleanReads [[1, 2]] [3], writes := [] },
    t2c := { reads := cleanReads [[7]] [], writes := [.ok] },
    sched := [true, false, false, true] }

/-- A session whose dial fails. -/
def refusedEnv : SessionEnv :=
  { dial := .failed "connection refused".toList,
    c2t := { reads := [], writes := [] },
    t2c := { reads := [], writes := [] },
    sched := [] }

/-! ## Lemmas on the string functions -/

theorem isIPAllowed_loop_iff (c : GoString) (l : List GoString) :
    isIPAllowed.loop c l = true ↔ c ∈ l := by
  induction l with
  | nil => simp [isIPAllowed.loop]
  | cons a rest ih =>
    by_cases h : c = a
    · simp [isIPAllowed.loop, h]
    · simp [isIPAllowed.loop, h, ih]

theorem isIPAllowed_iff (p : TCPProxy) (c : GoString) :
    isIPAllowed p c = true ↔ p.AllowedIPs = [] ∨ c ∈ p.AllowedIPs := by
  unfold isIPAllowed
  by_cases h : p.AllowedIPs = []
  · simp [h]
  · have hlen : p.AllowedIPs.length ≠ 0 := by
      intro h0
      exact h (List.length_eq_zero.mp h0)
    simp [hlen, h, isIPAllowed_loop_iff]

theorem Split_ne_nil (s : GoString) : Split s ≠ [] := by
  cases s with
  | nil => simp [Split]
  | cons c cs =>
    unfold Split
    by_cases h : c = ','
    · simp [h]
    · simp only [h, if_false]
      cases Split cs <;> simp

/-- Joining the pieces of `Split s` with commas gives `s` back. -/
theorem Split_intercalate (s : GoString) : [','].intercalate (Split s) = s := by
  induction s with
  | nil => simp [Split, List.intercalate]
  | cons c cs ih =>
    unfold Split
    by_cases h : c = ','
    · simp only [h, if_true]
      have hne := Split_ne_nil cs
      cases hs : Split cs with
      | nil => exact absurd hs hne
      | cons piece rest =>
        rw [hs] at ih
        simpa [List.intercalate, List.intersperse] using ih
    · simp only [h, if_false]
      have hne := Split_ne_nil cs
      cases hs : Split cs with
      | nil => exact absurd hs hne
      | cons piece rest =>
        rw [hs] at ih
        cases rest with
        | nil => simpa [List.intercalate, List.intersperse] using ih
        | cons r rs => simpa [List.intercalate, List.intersperse] using ih

/-- No piece of `Split s` holds a comma. -/
theorem Split_no_comma (s : GoString) : ∀ piece ∈ Split s, ',' ∉ piece := by
  induction s with
  | nil => simp [Split]
  | cons c cs ih =>
    unfold Split
    by_cases h : c = ','
    · simp only [h, if_true]
      intro piece hp
      rcases List.mem_cons.mp hp with rfl | hp
      · simp
      · exact ih piece hp
    · simp only [h, if_false]
      have hne := Split_ne_nil cs
      cases hs : Split cs with
      | nil => exact absurd hs hne
      | cons piece rest =>
        rw [hs] at ih
        intro q hq
        rcases List.mem_cons.mp hq with rfl | hq
        · intro hmem
          rcases List.mem_cons.mp hmem with hc | hc
          · exact h hc.symm
          · exact ih piece (List.mem_cons_self _ _) hc
        · exact ih q (List.mem_cons_of_mem _ hq)

/-- Every character of a piece of `Split s` is a character of `s` other than
the comma. -/
theorem Split_mem_chars (s : GoString) :
    ∀ piece ∈ Split s, ∀ ch ∈ piece, ch ∈ s ∧ ch ≠ ',' := by
  induction s with
  | nil => simp [Split]
  | cons c cs ih =>
    unfold Split
    by_cases h : c = ','
    · simp only [h, if_true]
      intro piece hp ch hch
      rcases List.mem_cons.mp hp with rfl | hp
      · simp at hch
      · exact ⟨List.mem_cons_of_mem _ (ih piece hp ch hch).1, (ih piece hp ch hch).2⟩
    · simp only [h, if_false]
      have hne := Split_ne_nil cs
      cases hs : Split cs with
      | nil => exact absurd hs hne
      | cons piece rest =>
        rw [hs] at ih
        intro q hq ch hch
        rcases List.mem_cons.mp hq with rfl | hq
        · rcases List.mem_cons.mp hch with rfl | hc
          · exact ⟨List.mem_cons_self _ _, h⟩
          · have := ih piece (List.mem_cons_self _ _) ch hc
            exact ⟨List.mem_cons_of_mem _ this.1, this.2⟩
        · have := ih q (List.mem_cons_of_mem _ hq) ch hch
          exact ⟨List.mem_cons_of_mem _ this.1, this.2⟩

/-- What `dropWhile` removes and what it keeps. -/
theorem dropWhile_decomp (f : Char → Bool) (s : GoString) :
    ∃ l, s = l ++ s.dropWhile f ∧ (∀ c ∈ l, f c = true) ∧
      ∀ c, (s.dropWhile f).head? = some c → f c = false := by
  induction s with
  | nil => exact ⟨[], by simp⟩
  | cons a rest ih =>
    by_cases h : f a = true
    · obtain ⟨l, h1, h2, h3⟩ := ih
      refine ⟨a :: l, ?_, ?_, ?_⟩
      · simp only [List.dropWhile_cons, h, if_true, List.cons_append]
        exact congrArg _ h1
      · intro c hc
        rcases List.mem_cons.mp hc with rfl | hc
        · exact h
        · exact h2 c hc
      · simpa [List.dropWhile_cons, h] using h3
    · refine ⟨[], ?_, by simp, ?_⟩
      · simp [List.dropWhile_cons, h]
      · intro c hc
        simp [List.dropWhile_cons, h] at hc
        subst hc
        simpa using h

/-- The result of `TrimSpace` is the input without a run of white space at
each end, and it neither starts nor ends with white space. -/
theorem TrimSpace_spec (s : GoString) :
    ∃ l r, s = l ++ TrimSpace s ++ r ∧ (∀ c ∈ l, isSpace c = true) ∧
      (∀ c ∈ r, isSpace c = true) ∧
      (∀ c, (TrimSpace s).head? = some c → isSpace c = false) ∧
      (∀ c, (TrimSpace s).getLast? = some c → isSpace c = false) := by
  obtain ⟨l, h1, h2, h3⟩ := dropWhile_decomp isSpace s
  obtain ⟨r, g1, g2, g3⟩ := dropWhile_decomp isSpace (s.dropWhile isSpace).reverse
  refine ⟨l, r.reverse, ?_, h2, ?_, ?_, ?_⟩
  · have e : s.dropWhile isSpace = TrimSpace s ++ r.reverse := by
      have := congrArg List.reverse g1
      simpa [TrimSpace] using this
    rw [List.append_assoc, ← e]
    exact h1
  · intro c hc
    exact g2 c (List.mem_reverse.mp hc)
  · intro c hc
    by_cases hr : r = []
    · subst hr
      have e : s.dropWhile isSpace = TrimSpace s := by
        have := congrArg List.reverse g1
        simpa [TrimSpace] using this
      rw [← e] at hc
      exact h3 c hc
    · -- some trailing white space was removed: the head is still the head
      have e : s.dropWhile isSpace = TrimSpace s ++ r.reverse := by
        have := congrArg List.reverse g1
        simpa [TrimSpace] using this
      apply h3 c
      rw [e]
      cases ht : TrimSpace s with
      | nil => rw [ht] at hc; simp at hc
      | cons a t => rw [ht] at hc; simpa using hc
  · intro c hc
    apply g3 c
    unfold TrimSpace at hc
    rw [List.getLast?_reverse] at hc
    exact hc

theorem TrimSpace_all_space (s : GoString) (h : ∀ c ∈ s, isSpace c = true) :
    TrimSpace s = [] := by
  have : s.dropWhile isSpace = [] := by
    rw [List.dropWhile_eq_nil_iff]
    exact h
  simp [TrimSpace, this]


/-! ## Lemmas on `strconv.Atoi` and the ports -/

theorem Atoi_range (s : GoString) (n : Int) (h : Atoi s = some n) :
    -(2 ^ 63 : Int) ≤ n ∧ n < 2 ^ 63 := by
  unfold Atoi at h
  cases s with
  | nil => simp at h
  | cons c cs =>
    simp only at h
    split at h
    · simp at h
    · split at h
      · simp at h
      · rename_i un _
        split at h
        · split at h
          · simp only [Option.some.injEq] at h
            subst h
            rename_i hle
            simp only [intSize] at hle
            constructor <;> omega
          · simp at h
        · split at h
          · simp only [Option.some.injEq] at h
            subst h
            rename_i hlt
            simp only [intSize] at hlt
            constructor <;> omega
          · simp at h

theorem portOrDefault_cases (s : GoString) (dflt : Int) :
    (portOrDefault s dflt = dflt ∧ (Atoi s = none ∨ Atoi s = some 0)) ∨
    (Atoi s = some (portOrDefault s dflt) ∧ portOrDefault s dflt ≠ 0) := by
  unfold portOrDefault
  cases h : Atoi s with
  | none => simp
  | some n =>
    by_cases h0 : n = 0
    · simp [h0]
    · simp [h0]

theorem portOrDefault_bounds (s : GoString) (dflt : Int) (h0 : dflt ≠ 0)
    (h1 : -(2 ^ 63 : Int) ≤ dflt) (h2 : dflt < 2 ^ 63) :
    portOrDefault s dflt ≠ 0 ∧ -(2 ^ 63 : Int) ≤ portOrDefault s dflt ∧
      portOrDefault s dflt < 2 ^ 63 := by
  rcases portOrDefault_cases s dflt with ⟨h, _⟩ | ⟨h, hne⟩
  · rw [h]
    exact ⟨h0, h1, h2⟩
  · exact ⟨hne, Atoi_range s _ h⟩

theorem digitChar_digit (m : Nat) (h : m < 10) :
    '0' ≤ Nat.digitChar m ∧ Nat.digitChar m ≤ '9' ∧
      (Nat.digitChar m).toNat - '0'.toNat = m := by
  interval_cases m <;> decide

/-- Reading back the decimal digits that `Nat.toDigits` writes. -/
theorem parseDigits_toDigitsCore (fuel : Nat) :
    ∀ (n : Nat) (ds : GoString), n < fuel →
      parseDigits (Nat.toDigitsCore 10 fuel n ds) 0 = parseDigits ds n := by
  induction fuel with
  | zero => intro n ds h; omega
  | succ fuel ih =>
    intro n ds h
    have hd := digitChar_digit (n % 10) (Nat.mod_lt _ (by decide))
    unfold Nat.toDigitsCore
    simp only
    by_cases hq : n / 10 = 0
    · simp only [hq, if_true]
      have hlt : n < 10 := by omega
      have hmod : n % 10 = n := Nat.mod_eq_of_lt hlt
      rw [hmod] at hd ⊢
      have h3 : n.digitChar.toNat - 48 = n := hd.2.2
      simp [parseDigits, hd.1, hd.2.1, h3]
    · simp only [hq, if_false]
      rw [ih (n / 10) _ (by omega)]
      have h3 : (n % 10).digitChar.toNat - 48 = n % 10 := hd.2.2
      simp only [parseDigits, hd.1, hd.2.1, and_self, if_true]
      congr 1
      have h48 : ('0' : Char).toNat = 48 := rfl
      rw [h48, h3]
      omega

theorem parseDigits_toDigits (n : Nat) : parseDigits (Nat.toDigits 10 n) 0 = some n := by
  unfold Nat.toDigits
  rw [parseDigits_toDigitsCore (n + 1) n [] (by omega)]
  rfl

theorem Atoi_of_parseDigits (s : GoString) (n : Nat) (hs : s ≠ [])
    (hp : parseDigits s 0 = some n) (hn : n < 2 ^ 63) : Atoi s = some (n : Int) := by
  cases s with
  | nil => exact absurd rfl hs
  | cons c cs =>
    have hc : '0' ≤ c ∧ c ≤ '9' := by
      by_contra hcon
      simp [parseDigits, hcon] at hp
    have hm : c ≠ '-' := by
      rintro rfl
      exact absurd hc (by decide)
    have hpl : c ≠ '+' := by
      rintro rfl
      exact absurd hc (by decide)
    unfold Atoi
    have hn2 : n < 2 ^ (intSize - 1) := hn
    simp only [hm, hpl, or_self, if_false, hp, hn2, if_true]

/-- A decimal numeral written by `Nat.toDigits` is read back by `Atoi`. -/
theorem Atoi_toDigits (n : Nat) (hn : n < 2 ^ 63) :
    Atoi (Nat.toDigits 10 n) = some (n : Int) := by
  by_cases h0 : n = 0
  · subst h0
    decide
  · apply Atoi_of_parseDigits _ _ _ (parseDigits_toDigits n) hn
    intro h
    have hp := parseDigits_toDigits n
    rw [h] at hp
    simp only [parseDigits, Option.some.injEq] at hp
    exact h0 hp.symm

theorem portOrDefault_toDigits (n : Nat) (dflt : Int) (h0 : 0 < n) (hn : n < 2 ^ 63) :
    portOrDefault (Nat.toDigits 10 n) dflt = (n : Int) := by
  unfold portOrDefault
  rw [Atoi_toDigits n hn]
  have : (n : Int) ≠ 0 := by omega
  simp [this]


/-! ## Lemmas on the interleaving -/

theorem merge_nil_left {α : Type} (s : List Bool) (ys : List α) : merge s [] ys = ys := by
  cases s <;> cases ys <;> rfl

theorem merge_nil_right {α : Type} (s : List Bool) (xs : List α) : merge s xs [] = xs := by
  cases s <;> cases xs <;> rfl

/-- An interleaving holds the steps of both goroutines, each once. -/
theorem merge_perm {α : Type} (s : List Bool) :
    ∀ xs ys : List α, (merge s xs ys).Perm (xs ++ ys) := by
  induction s with
  | nil =>
    intro xs ys
    cases xs with
    | nil => simp [merge_nil_left]
    | cons x xs =>
      cases ys with
      | nil => simp [merge]
      | cons y ys => simp [merge]
  | cons b bs ih =>
    intro xs ys
    cases xs with
    | nil => simp [merge_nil_left]
    | cons x xs =>
      cases ys with
      | nil => simp [merge]
      | cons y ys =>
        cases b with
        | true =>
          simp only [merge, if_true, List.cons_append]
          exact List.Perm.cons x (ih xs (y :: ys))
        | false =>
          simp only [merge, Bool.false_eq_true, if_false]
          have h1 : (y :: merge bs (x :: xs) ys).Perm (y :: ((x :: xs) ++ ys)) :=
            List.Perm.cons y (ih (x :: xs) ys)
          exact h1.trans (List.perm_middle.symm)

/-- An interleaving keeps the order of the steps of the first goroutine. -/
theorem merge_filterMap_left {α β : Type} (f : α → Option β) (s : List Bool) :
    ∀ xs ys : List α, (∀ y ∈ ys, f y = none) →
      (merge s xs ys).filterMap f = xs.filterMap f := by
  induction s with
  | nil =>
    intro xs ys h
    cases xs with
    | nil =>
      rw [merge_nil_left]
      simpa [List.filterMap_eq_nil_iff] using h
    | cons x xs =>
      cases ys with
      | nil => simp [merge]
      | cons y ys =>
        have hy : (y :: ys).filterMap f = [] := by
          rw [List.filterMap_eq_nil_iff]
          exact h
        simp only [merge, List.filterMap_append, hy, List.append_nil]
  | cons b bs ih =>
    intro xs ys h
    cases xs with
    | nil =>
      rw [merge_nil_left]
      simpa [List.filterMap_eq_nil_iff] using h
    | cons x xs =>
      cases ys with
      | nil => simp [merge]
      | cons y ys =>
        cases b with
        | true =>
          simp only [merge, if_true, List.filterMap_cons]
          rw [ih xs (y :: ys) h]
        | false =>
          simp only [merge, Bool.false_eq_true, if_false, List.filterMap_cons]
          rw [h y (List.mem_cons_self _ _)]
          exact ih (x :: xs) ys (fun z hz => h z (List.mem_cons_of_mem _ hz))

/-- An interleaving keeps the order of the steps of the second goroutine. -/
theorem merge_filterMap_right {α β : Type} (f : α → Option β) (s : List Bool) :
    ∀ xs ys : List α, (∀ x ∈ xs, f x = none) →
      (merge s xs ys).filterMap f = ys.filterMap f := by
  induction s with
  | nil =>
    intro xs ys h
    cases xs with
    | nil => rw [merge_nil_left]
    | cons x xs =>
      have hx : (x :: xs).filterMap f = [] := by
        rw [List.filterMap_eq_nil_iff]
        exact h
      cases ys with
      | nil => simpa [merge] using hx
      | cons y ys =>
        simp only [merge, List.filterMap_append, hx, List.nil_append]
  | cons b bs ih =>
    intro xs ys h
    cases xs with
    | nil => rw [merge_nil_left]
    | cons x xs =>
      have hx : (x :: xs).filterMap f = [] := by
        rw [List.filterMap_eq_nil_iff]
        exact h
      cases ys with
      | nil => simpa [merge] using hx
      | cons y ys =>
        cases b with
        | true =>
          simp only [merge, if_true, List.filterMap_cons]
          rw [h x (List.mem_cons_self _ _)]
          exact ih xs (y :: ys) (fun z hz => h z (List.mem_cons_of_mem _ hz))
        | false =>
          simp only [merge, Bool.false_eq_true, if_false, List.filterMap_cons]
          rw [ih (x :: xs) ys h]

theorem cutAtPanic_subset (l : List Event) : ∀ e ∈ cutAtPanic l, e ∈ l := by
  induction l with
  | nil => simp [cutAtPanic]
  | cons a rest ih =>
    intro e he
    unfold cutAtPanic at he
    split at he
    · simp only [List.mem_singleton] at he
      subst he
      exact List.mem_cons_self _ _
    · rcases List.mem_cons.mp he with rfl | he
      · exact List.mem_cons_self _ _
      · exact List.mem_cons_of_mem _ (ih e he)

/-! ## Lemmas on `io.Copy` and the copy goroutines -/

/-- The events of `io.Copy` are reads and writes. -/
theorem ioCopy_isReadWrite (rs : List ReadRes) :
    ∀ ws : List WriteRes, ∀ e ∈ (ioCopy rs ws).1, isReadWrite e = true := by
  induction rs with
  | nil => intro ws e he; simp [ioCopy] at he
  | cons r rs ih =>
    intro ws e he
    unfold ioCopy at he
    simp only at he
    split at he
    · split at he
      · simp only [List.mem_singleton] at he
        subst he; rfl
      · split at he
        · simp only [List.mem_cons, List.mem_singleton, List.not_mem_nil, or_false] at he
          rcases he with rfl | rfl <;> rfl
        · simp only [List.mem_cons] at he
          rcases he with rfl | rfl | he
          · rfl
          · rfl
          · exact ih _ e he
      · repeat' split at he
        all_goals
          simp only [List.mem_cons, List.mem_singleton, List.not_mem_nil, or_false] at he
        all_goals
          first
          | (rcases he with rfl | rfl <;> rfl)
          | (rcases he with rfl | rfl | he
             · rfl
             · rfl
             · exact ih _ e he)
    · split at he
      · simp only [List.mem_singleton] at he
        subst he; rfl
      · simp only [List.mem_cons] at he
        rcases he with rfl | he
        · rfl
        · exact ih _ e he


theorem io_map_no_panic (d : Dir) (l : List GEvent) (h : ∀ e ∈ l, isReadWrite e = true) :
    (l.map (Event.g d)).any isGPanic = false := by
  induction l with
  | nil => rfl
  | cons a rest ih =>
    have ha := h a (List.mem_cons_self _ _)
    have hr := ih (fun e he => h e (List.mem_cons_of_mem _ he))
    cases a <;> simp_all [isReadWrite, isGPanic]

theorem io_map_no_done (d : Dir) (l : List GEvent) (h : ∀ e ∈ l, isReadWrite e = true) :
    (l.map (Event.g d)).filter isDone = [] := by
  induction l with
  | nil => rfl
  | cons a rest ih =>
    have ha := h a (List.mem_cons_self _ _)
    have hr := ih (fun e he => h e (List.mem_cons_of_mem _ he))
    cases a <;> simp_all [isReadWrite, isDone]

/-- The three shapes of the events of a copy goroutine. -/
theorem copyGoroutine_cases (d : Dir) (b : Bool) (e : CopyEnv) :
    ((ioCopy e.reads e.writes).2 = true ∧ b = true ∧
      copyGoroutine d b e =
        (ioCopy e.reads e.writes).1 ++ [.copyReturned, .closeWrite d.dst, .done]) ∨
    ((ioCopy e.reads e.writes).2 = true ∧ b = false ∧
      copyGoroutine d b e = (ioCopy e.reads e.writes).1 ++ [.copyReturned, .panic]) ∨
    ((ioCopy e.reads e.writes).2 = false ∧
      copyGoroutine d b e = (ioCopy e.reads e.writes).1) := by
  unfold copyGoroutine
  cases h : (ioCopy e.reads e.writes).2 <;> cases b <;> simp [h]

/-- Whether a copy goroutine panics, and how many `wg.Done()` it calls. -/
theorem copyGoroutine_summary (d : Dir) (b : Bool) (e : CopyEnv) :
    ((copyGoroutine d b e).map (Event.g d)).any isGPanic =
        ((ioCopy e.reads e.writes).2 && !b) ∧
    (((copyGoroutine d b e).map (Event.g d)).filter isDone).length =
        (if (ioCopy e.reads e.writes).2 = true ∧ b = true then 1 else 0) := by
  have hrw := ioCopy_isReadWrite e.reads e.writes
  have h1 := io_map_no_panic d _ hrw
  have h2 := io_map_no_done d _ hrw
  rcases copyGoroutine_cases d b e with ⟨hr, hb, hg⟩ | ⟨hr, hb, hg⟩ | ⟨hr, hg⟩
  · rw [hg, hr, hb]
    simp only [List.map_append, List.any_append, h1, List.filter_append, h2]
    simp [isGPanic, isDone]
  · rw [hg, hr, hb]
    simp only [List.map_append, List.any_append, h1, List.filter_append, h2]
    simp [isGPanic, isDone]
  · rw [hg, hr]
    simp [h1, h2]

/-- Whether the copy phase ends in a panic, and the number of `wg.Done()`
calls in it. -/
theorem runCopies_summary (conn : Conn) (env : SessionEnv) :
    (runCopies conn env).any isGPanic =
        ((ioCopy env.t2c.reads env.t2c.writes).2 && !conn.isTCPConn) ∧
    ((runCopies conn env).filter isDone).length =
        (if (ioCopy env.c2t.reads env.c2t.writes).2 = true then 1 else 0) +
        (if (ioCopy env.t2c.reads env.t2c.writes).2 = true ∧ conn.isTCPConn = true
          then 1 else 0) := by
  have hp := merge_perm env.sched
    ((copyGoroutine .c2t true env.c2t).map (Event.g .c2t))
    ((copyGoroutine .t2c conn.isTCPConn env.t2c).map (Event.g .t2c))
  have s1 := copyGoroutine_summary .c2t true env.c2t
  have s2 := copyGoroutine_summary .t2c conn.isTCPConn env.t2c
  constructor
  · have : (runCopies conn env).any isGPanic =
        (((copyGoroutine .c2t true env.c2t).map (Event.g .c2t)) ++
          ((copyGoroutine .t2c conn.isTCPConn env.t2c).map (Event.g .t2c))).any isGPanic := by
      rw [Bool.eq_iff_iff]
      simp only [List.any_eq_true]
      constructor
      · rintro ⟨x, hx, hpx⟩
        exact ⟨x, hp.mem_iff.mp hx, hpx⟩
      · rintro ⟨x, hx, hpx⟩
        exact ⟨x, hp.mem_iff.mpr hx, hpx⟩
    rw [this, List.any_append, s1.1, s2.1]
    simp
  · have : ((runCopies conn env).filter isDone).length =
        ((((copyGoroutine .c2t true env.c2t).map (Event.g .c2t)) ++
          ((copyGoroutine .t2c conn.isTCPConn env.t2c).map (Event.g .t2c))).filter
            isDone).length := (hp.filter isDone).length_eq
    rw [this, List.filter_append, List.length_append, s1.2, s2.2]
    simp

/-- The goroutine events of one direction in the copy phase are the events of
that goroutine, in its program order. -/
theorem proj_runCopies (conn : Conn) (env : SessionEnv) :
    proj .c2t (runCopies conn env) = copyGoroutine .c2t true env.c2t ∧
    proj .t2c (runCopies conn env) = copyGoroutine .t2c conn.isTCPConn env.t2c := by
  have key : ∀ (d : Dir) (l : List GEvent), proj d (l.map (Event.g d)) = l := by
    intro d l
    induction l with
    | nil => rfl
    | cons a rest ih =>
      simp only [proj, List.map_cons, List.filterMap_cons, if_true] at ih ⊢
      rw [ih]
  constructor
  · unfold runCopies proj
    simp only
    rw [merge_filterMap_left]
    · exact key .c2t _
    · intro y hy
      obtain ⟨ge, _, rfl⟩ := List.mem_map.mp hy
      simp
  · unfold runCopies proj
    simp only
    rw [merge_filterMap_right]
    · exact key .t2c _
    · intro y hy
      obtain ⟨ge, _, rfl⟩ := List.mem_map.mp hy
      simp

/-- Every event of the copy phase belongs to a copy goroutine. -/
theorem runCopies_isCopy (conn : Conn) (env : SessionEnv) :
    ∀ e ∈ runCopies conn env, isCopy e = true := by
  intro e he
  have hp := merge_perm env.sched
    ((copyGoroutine .c2t true env.c2t).map (Event.g .c2t))
    ((copyGoroutine .t2c conn.isTCPConn env.t2c).map (Event.g .t2c))
  have := hp.mem_iff.mp he
  rcases List.mem_append.mp this with h | h
  · obtain ⟨ge, _, rfl⟩ := List.mem_map.mp h
    rfl
  · obtain ⟨ge, _, rfl⟩ := List.mem_map.mp h
    rfl

/-- The three ways a session goes on after a successful dial. -/
theorem handleConnection_connected (p : TCPProxy) (conn : Conn) (env : SessionEnv)
    (ip : GoString) (haddr : conn.RemoteAddr = .tcp ip) (hallow : isIPAllowed p ip = true)
    (hdial : env.dial = .connected) :
    ((ioCopy env.t2c.reads env.t2c.writes).2 = true ∧ conn.isTCPConn = false ∧
      (handleConnection p conn env).outcome = .crashed ∧
      (handleConnection p conn env).trace =
        [.logAccepted ip, .dial (targetAddr p)] ++ cutAtPanic (runCopies conn env)) ∨
    ((ioCopy env.c2t.reads env.c2t.writes).2 = true ∧
      (ioCopy env.t2c.reads env.t2c.writes).2 = true ∧ conn.isTCPConn = true ∧
      (handleConnection p conn env).outcome = .returned ∧
      (handleConnection p conn env).trace =
        [.logAccepted ip, .dial (targetAddr p)] ++ runCopies conn env ++
          [.waitReturned, .close .target, .close .client]) ∨
    (((ioCopy env.c2t.reads env.c2t.writes).2 = false ∨
        (ioCopy env.t2c.reads env.t2c.writes).2 = false) ∧
      (conn.isTCPConn = true ∨ (ioCopy env.t2c.reads env.t2c.writes).2 = false) ∧
      (handleConnection p conn env).outcome = .blocked ∧
      (handleConnection p conn env).trace =
        [.logAccepted ip, .dial (targetAddr p)] ++ runCopies conn env) := by
  obtain ⟨hpanic, hdone⟩ := runCopies_summary conn env
  have hw : wgCounter (runCopies conn env) =
      2 - ((if (ioCopy env.c2t.reads env.c2t.writes).2 = true then 1 else 0) +
        (if (ioCopy env.t2c.reads env.t2c.writes).2 = true ∧ conn.isTCPConn = true
          then 1 else 0)) := by
    unfold wgCounter
    rw [hdone]
  unfold handleConnection
  simp only [haddr, hallow, hdial, Bool.not_true, Bool.false_eq_true, if_false, hpanic, hw]
  cases h2 : (ioCopy env.t2c.reads env.t2c.writes).2 <;>
    cases hb : conn.isTCPConn <;>
    cases h1 : (ioCopy env.c2t.reads env.c2t.writes).2 <;>
    simp


/-! ## Lemmas on the trace of a session -/

theorem mem_proj (d : Dir) (ge : GEvent) (l : List Event) :
    ge ∈ proj d l ↔ Event.g d ge ∈ l := by
  unfold proj
  rw [List.mem_filterMap]
  constructor
  · rintro ⟨e, he, hf⟩
    cases e with
    | g d' ge' =>
      by_cases hd : d' = d
      · subst hd
        simp only [if_true, Option.some.injEq] at hf
        subst hf
        exact he
      · simp [hd] at hf
    | _ => simp at hf
  · intro h
    exact ⟨Event.g d ge, h, by simp⟩

theorem proj_append (d : Dir) (a b : List Event) : proj d (a ++ b) = proj d a ++ proj d b := by
  unfold proj
  exact List.filterMap_append _ _ _

theorem copy_no_close (l : List Event) (h : ∀ e ∈ l, isCopy e = true) (c : ConnId) :
    Event.close c ∉ l := by
  intro hc
  have := h _ hc
  simp [isCopy] at this

theorem copy_no_wait (l : List Event) (h : ∀ e ∈ l, isCopy e = true) :
    Event.waitReturned ∉ l := by
  intro hc
  have := h _ hc
  simp [isCopy] at this

/-- Where an element that is not in the first part of a list sits. -/
theorem split_after {α : Type} (A B pre post : List α) (x : α) (hx : x ∉ A)
    (h : A ++ B = pre ++ x :: post) : ∃ B', pre = A ++ B' ∧ B = B' ++ x :: post := by
  rcases List.append_eq_append_iff.mp h with ⟨a', h1, h2⟩ | ⟨c', h1, h2⟩
  · exact ⟨a', h1, h2⟩
  · cases c' with
    | nil =>
      refine ⟨[], ?_, ?_⟩
      · simpa using h1.symm
      · simpa using h2.symm
    | cons y ctail =>
      simp only [List.cons_append, List.cons.injEq] at h2
      exfalso
      apply hx
      rw [h1, h2.1]
      simp

/-- With a client of type `*net.TCPConn`, the events of each direction in the
trace of a session whose dial succeeded are those of its copy goroutine. -/
theorem proj_trace_connected (p : TCPProxy) (conn : Conn) (env : SessionEnv)
    (ip : GoString) (haddr : conn.RemoteAddr = .tcp ip) (hallow : isIPAllowed p ip = true)
    (hdial : env.dial = .connected) (htcp : conn.isTCPConn = true) (d : Dir) :
    proj d (handleConnection p conn env).trace = copyGoroutine d true (env.copy d) := by
  have hproj := proj_runCopies conn env
  rw [htcp] at hproj
  have hd : proj d (runCopies conn env) = copyGoroutine d true (env.copy d) := by
    cases d
    · exact hproj.1
    · exact hproj.2
  rcases handleConnection_connected p conn env ip haddr hallow hdial with
    ⟨_, hb, _, _⟩ | ⟨_, _, _, _, ht⟩ | ⟨_, _, _, ht⟩
  · rw [htcp] at hb
    exact absurd hb (by decide)
  · rw [ht, proj_append, proj_append, hd]
    simp [proj]
  · rw [ht, proj_append, hd]
    simp [proj]

theorem writtenBytes_append (a b : List GEvent) :
    writtenBytes (a ++ b) = writtenBytes a ++ writtenBytes b := by
  induction a with
  | nil => rfl
  | cons x rest ih =>
    cases x <;> simp [writtenBytes, ih]

theorem nextWrite_ok (ws : List WriteRes) (h : ∀ w ∈ ws, w = .ok) :
    (nextWrite ws).1 = .ok ∧ ∀ w ∈ (nextWrite ws).2, w = .ok := by
  cases ws with
  | nil => simp [nextWrite]
  | cons w rest =>
    refine ⟨h w (List.mem_cons_self _ _), fun w' hw' => h w' (List.mem_cons_of_mem _ hw')⟩

/-- A copy whose source delivers its chunks and then end-of-input, and whose
destination accepts every write in full, returns after having written the
chunks in order. -/
theorem ioCopy_clean (chunks : List (List Byte)) (last : List Byte) :
    ∀ ws : List WriteRes, (∀ w ∈ ws, w = .ok) →
      (ioCopy (cleanReads chunks last) ws).2 = true ∧
      writtenBytes (ioCopy (cleanReads chunks last) ws).1 = chunks.flatten ++ last := by
  induction chunks with
  | nil =>
    intro ws hws
    obtain ⟨h1, _⟩ := nextWrite_ok ws hws
    simp only [cleanReads, List.map_nil, List.nil_append, List.flatten_nil]
    unfold ioCopy
    by_cases hl : (0 : Int) < (last.length : Int)
    · simp only [hl, if_true]
      rcases hnw : nextWrite ws with ⟨w, ws'⟩
      rw [hnw] at h1
      simp only at h1
      subst h1
      simp [writtenBytes]
    · have hnil : last = [] := by
        cases last with
        | nil => rfl
        | cons a t => simp at hl
      subst hnil
      simp [writtenBytes]
  | cons c rest ih =>
    intro ws hws
    obtain ⟨h1, h2⟩ := nextWrite_ok ws hws
    have hcons : cleanReads (c :: rest) last =
        { data := c, err := none } :: cleanReads rest last := rfl
    rw [hcons]
    unfold ioCopy
    by_cases hl : (0 : Int) < (c.length : Int)
    · simp only [hl, if_true]
      rcases hnw : nextWrite ws with ⟨w, ws'⟩
      rw [hnw] at h1 h2
      simp only at h1 h2
      subst h1
      obtain ⟨i1, i2⟩ := ih ws' h2
      simp [writtenBytes, i1, i2]
    · have hnil : c = [] := by
        cases c with
        | nil => rfl
        | cons a t => simp at hl
      subst hnil
      obtain ⟨i1, i2⟩ := ih ws hws
      simp [writtenBytes, i1, i2]

/-- The order of the join and of the closes in a session whose dial succeeded,
stated for a direction `d` and the destination `d.dst` of its copy. -/
theorem close_after_join (p : TCPProxy) (conn : Conn) (env : SessionEnv)
    (ip : GoString) (haddr : conn.RemoteAddr = .tcp ip) (hallow : isIPAllowed p ip = true)
    (hdial : env.dial = .connected) :
    (∀ pre c post, (handleConnection p conn env).trace = pre ++ Event.close c :: post →
      Event.waitReturned ∈ pre ∧
      ∀ d, Event.g d .copyReturned ∈ pre ∧ Event.g d (.closeWrite d.dst) ∈ pre ∧
        Event.g d .done ∈ pre) ∧
    (∀ pre post, (handleConnection p conn env).trace = pre ++ Event.waitReturned :: post →
      (∀ d, Event.g d .done ∈ pre) ∧ ∀ c, Event.close c ∉ pre) ∧
    (conn.isTCPConn = true →
      ∀ d, Event.g d .copyReturned ∈ (handleConnection p conn env).trace →
        ∃ steps, (∀ e ∈ steps, isReadWrite e = true) ∧
          proj d (handleConnection p conn env).trace =
            steps ++ [.copyReturned, .closeWrite d.dst, .done]) := by
  have hbody := runCopies_isCopy conn env
  have hpre : ∀ e ∈ [Event.logAccepted ip, Event.dial (targetAddr p)] ++ runCopies conn env,
      e ≠ Event.waitReturned ∧ ∀ c, e ≠ Event.close c := by
    intro e he
    rcases List.mem_append.mp he with h | h
    · simp only [List.mem_cons, List.mem_singleton, List.not_mem_nil, or_false] at h
      rcases h with rfl | rfl <;> simp
    · have := hbody e h
      cases e <;> simp [isCopy] at this ⊢
  -- in a session that returns, both goroutines ran to their end
  have hall : (ioCopy env.c2t.reads env.c2t.writes).2 = true →
      (ioCopy env.t2c.reads env.t2c.writes).2 = true → conn.isTCPConn = true →
      ∀ d, Event.g d .copyReturned ∈ runCopies conn env ∧
        Event.g d (.closeWrite d.dst) ∈ runCopies conn env ∧
        Event.g d .done ∈ runCopies conn env := by
    intro h1 h2 hb d
    have hproj := proj_runCopies conn env
    rw [hb] at hproj
    have hd : proj d (runCopies conn env) =
        (ioCopy (env.copy d).reads (env.copy d).writes).1 ++
          [.copyReturned, .closeWrite d.dst, .done] := by
      have hr : (ioCopy (env.copy d).reads (env.copy d).writes).2 = true := by
        cases d
        · exact h1
        · exact h2
      have hg : proj d (runCopies conn env) = copyGoroutine d true (env.copy d) := by
        cases d
        · exact hproj.1
        · exact hproj.2
      rw [hg]
      unfold copyGoroutine
      simp [hr]
    refine ⟨?_, ?_, ?_⟩ <;>
    · rw [← mem_proj, hd]
      simp
  refine ⟨?_, ?_, ?_⟩
  · intro pre c post hsplit
    rcases handleConnection_connected p conn env ip haddr hallow hdial with
      ⟨_, _, _, ht⟩ | ⟨h1, h2, hb, _, ht⟩ | ⟨_, _, _, ht⟩
    · exfalso
      have hmem : Event.close c ∈ (handleConnection p conn env).trace := by
        rw [hsplit]
        simp
      rw [ht] at hmem
      rcases List.mem_append.mp hmem with h | h
      · simp at h
      · exact copy_no_close _ hbody c (cutAtPanic_subset _ _ h)
    · rw [ht] at hsplit
      have hx : Event.close c ∉
          [Event.logAccepted ip, Event.dial (targetAddr p)] ++ runCopies conn env :=
        fun h => (hpre _ h).2 c rfl
      obtain ⟨B, hB1, hB2⟩ := split_after _ _ pre post _ hx hsplit
      have hw : Event.waitReturned ∈ B := by
        cases B with
        | nil => simp at hB2
        | cons b B' =>
          simp only [List.cons_append, List.cons.injEq] at hB2
          rw [← hB2.1]
          simp
      rw [hB1]
      refine ⟨by simp [hw], fun d => ?_⟩
      obtain ⟨m1, m2, m3⟩ := hall h1 h2 hb d
      simp [m1, m2, m3]
    · exfalso
      have hmem : Event.close c ∈ (handleConnection p conn env).trace := by
        rw [hsplit]
        simp
      rw [ht] at hmem
      exact (hpre _ hmem).2 c rfl
  · intro pre post hsplit
    rcases handleConnection_connected p conn env ip haddr hallow hdial with
      ⟨_, _, _, ht⟩ | ⟨h1, h2, hb, _, ht⟩ | ⟨_, _, _, ht⟩
    · exfalso
      have hmem : Event.waitReturned ∈ (handleConnection p conn env).trace := by
        rw [hsplit]
        simp
      rw [ht] at hmem
      rcases List.mem_append.mp hmem with h | h
      · simp at h
      · exact copy_no_wait _ hbody (cutAtPanic_subset _ _ h)
    · rw [ht] at hsplit
      have hx : Event.waitReturned ∉
          [Event.logAccepted ip, Event.dial (targetAddr p)] ++ runCopies conn env :=
        fun h => (hpre _ h).1 rfl
      obtain ⟨B, hB1, hB2⟩ := split_after _ _ pre post _ hx hsplit
      have hBnil : B = [] := by
        cases B with
        | nil => rfl
        | cons b B' =>
          exfalso
          simp only [List.cons_append, List.cons.injEq] at hB2
          obtain ⟨_, hrest⟩ := hB2
          cases B' with
          | nil => simp at hrest
          | cons b2 B2 =>
            simp only [List.cons_append, List.cons.injEq] at hrest
            obtain ⟨_, hrest⟩ := hrest
            cases B2 with
            | nil => simp at hrest
            | cons b3 B3 =>
              simp only [List.cons_append, List.cons.injEq] at hrest
              obtain ⟨_, hrest⟩ := hrest
              cases B3 <;> simp at hrest
      rw [hB1, hBnil, List.append_nil]
      refine ⟨fun d => ?_, fun c hc => (hpre _ hc).2 c rfl⟩
      obtain ⟨_, _, m3⟩ := hall h1 h2 hb d
      simp [m3]
    · exfalso
      have hmem : Event.waitReturned ∈ (handleConnection p conn env).trace := by
        rw [hsplit]
        simp
      rw [ht] at hmem
      exact (hpre _ hmem).1 rfl
  · intro htcp d hret
    rw [← mem_proj, proj_trace_connected p conn env ip haddr hallow hdial htcp d] at hret
    rw [proj_trace_connected p conn env ip haddr hallow hdial htcp d]
    rcases copyGoroutine_cases d true (env.copy d) with ⟨_, _, hg⟩ | ⟨_, hb, _⟩ | ⟨_, hg⟩
    · exact ⟨_, ioCopy_isReadWrite _ _, hg⟩
    · exact absurd hb (by decide)
    · rw [hg] at hret
      have := ioCopy_isReadWrite _ _ _ hret
      simp [isReadWrite] at this

/-! ## Lemmas on the listener loop -/

theorem Start_loop_append (a b : List AcceptRes) :
    Start.loop (a ++ b) = Start.loop a ++ Start.loop b := by
  induction a with
  | nil => rfl
  | cons x rest ih =>
    cases x <;> simp [Start.loop, ih]

theorem Start_loop_observed (a : List AcceptRes) :
    acceptCalls (Start.loop a) = a.length ∧
    loggedAcceptErrors (Start.loop a) = acceptErrors a ∧
    spawned (Start.loop a) = acceptedConns a := by
  induction a with
  | nil => exact ⟨rfl, rfl, rfl⟩
  | cons x rest ih =>
    obtain ⟨i1, i2, i3⟩ := ih
    unfold acceptCalls loggedAcceptErrors spawned acceptErrors acceptedConns at *
    cases x <;> simp [Start.loop, i1, i2, i3]

/-! ## The authorizer and the configuration -/

/-- C1: `isIPAllowed` returns true exactly when the allowlist is empty or one
of its entries is the client IP, character for character. -/
theorem C1_isIPAllowed_iff_empty_or_member (p : TCPProxy) (c : GoString) :
    isIPAllowed p c = true ↔ p.AllowedIPs = [] ∨ c ∈ p.AllowedIPs :=
  isIPAllowed_iff p c

/-- C7, as the claim states it, fails: the setting `TARGET_PORT=70000` gives
the target port 70000 and `LISTEN_PORT=-1` gives the listen port -1, both
outside 1-65535. -/
theorem C7_port_out_of_range :
    (loadEnvConfig (mkGetenv "" "70000" "" "-1")).TargetPort = 70000 ∧
    ¬ ((loadEnvConfig (mkGetenv "" "70000" "" "-1")).TargetPort ≤ 65535) ∧
    listenPortOf (mkGetenv "" "70000" "" "-1") = -1 ∧
    ¬ (1 ≤ listenPortOf (mkGetenv "" "70000" "" "-1")) := by
  decide

/-- C7, amended: the ports produced by configuration loading are non-zero
integers of Go's `int`; a value that `strconv.Atoi` rejects or reads as 0, the
empty value included, gives the default (9000 for the target port, 9001 for
the listen port); a value that `strconv.Atoi` reads as a non-zero integer is
used as it is, whatever its size or sign; in particular the decimal numeral of
a port in 1-65535 gives that port. -/
theorem C7_ports_amended (getenv : String → GoString) :
    ((loadEnvConfig getenv).TargetPort ≠ 0 ∧
      -(2 ^ 63 : Int) ≤ (loadEnvConfig getenv).TargetPort ∧
      (loadEnvConfig getenv).TargetPort < 2 ^ 63) ∧
    (listenPortOf getenv ≠ 0 ∧ -(2 ^ 63 : Int) ≤ listenPortOf getenv ∧
      listenPortOf getenv < 2 ^ 63) ∧
    (Atoi (getenv "TARGET_PORT") = none ∨ Atoi (getenv "TARGET_PORT") = some 0 →
      (loadEnvConfig getenv).TargetPort = 9000) ∧
    (Atoi (getenv "LISTEN_PORT") = none ∨ Atoi (getenv "LISTEN_PORT") = some 0 →
      listenPortOf getenv = 9001) ∧
    (getenv "TARGET_PORT" = [] → (loadEnvConfig getenv).TargetPort = 9000) ∧
    (getenv "LISTEN_PORT" = [] → listenPortOf getenv = 9001) ∧
    (∀ n : Int, n ≠ 0 → Atoi (getenv "TARGET_PORT") = some n →
      (loadEnvConfig getenv).TargetPort = n) ∧
    (∀ n : Int, n ≠ 0 → Atoi (getenv "LISTEN_PORT") = some n → listenPortOf getenv = n) ∧
    (∀ n : Nat, 1 ≤ n → n ≤ 65535 → getenv "TARGET_PORT" = Nat.toDigits 10 n →
      (loadEnvConfig getenv).TargetPort = (n : Int)) ∧
    (∀ n : Nat, 1 ≤ n → n ≤ 65535 → getenv "LISTEN_PORT" = Nat.toDigits 10 n →
      listenPortOf getenv = (n : Int)) := by
  have ht : (loadEnvConfig getenv).TargetPort = portOrDefault (getenv "TARGET_PORT") 9000 := rfl
  have hl : listenPortOf getenv = portOrDefault (getenv "LISTEN_PORT") 9001 := rfl
  rw [ht, hl]
  refine ⟨portOrDefault_bounds _ _ (by decide) (by decide) (by decide),
    portOrDefault_bounds _ _ (by decide) (by decide) (by decide), ?_, ?_, ?_, ?_, ?_, ?_, ?_, ?_⟩
  · rintro (h | h) <;> simp [portOrDefault, h]
  · rintro (h | h) <;> simp [portOrDefault, h]
  · intro h
    simp [portOrDefault, h, Atoi]
  · intro h
    simp [portOrDefault, h, Atoi]
  · intro n hn h
    simp [portOrDefault, h, hn]
  · intro n hn h
    simp [portOrDefault, h, hn]
  · intro n h1 h2 h
    rw [h]
    exact portOrDefault_toDigits n _ (by omega) (by omega)
  · intro n h1 h2 h
    rw [h]
    exact portOrDefault_toDigits n _ (by omega) (by omega)

/-- C7, amended, at `TARGET_PORT=8080` and an unset `LISTEN_PORT`. -/
theorem C7_ports_amended_witness :
    (loadEnvConfig (mkGetenv "" "8080" "" "")).TargetPort = 8080 ∧
    listenPortOf (mkGetenv "" "8080" "" "") = 9001 :=
  ⟨(C7_ports_amended (mkGetenv "" "8080" "" "")).2.2.2.2.2.2.2.2.1 8080
      (by decide) (by decide) (by decide),
    (C7_ports_amended (mkGetenv "" "8080" "" "")).2.2.2.2.2.1 (by decide)⟩

/-- C8: an empty `ALLOWED_IPS` gives the empty allowlist, which allows every
client; a non-empty one gives, in order, the pieces of the value between its
commas, each without its leading and trailing white space, and a client is
allowed exactly when its IP is one of these trimmed pieces. -/
theorem C8_allowlist_is_trimmed_pieces (getenv : String → GoString) :
    (getenv "ALLOWED_IPS" = [] →
      (loadEnvConfig getenv).AllowedIPs = [] ∧
      ∀ c, isIPAllowed (loadEnvConfig getenv) c = true) ∧
    (getenv "ALLOWED_IPS" ≠ [] →
      (loadEnvConfig getenv).AllowedIPs = (Split (getenv "ALLOWED_IPS")).map TrimSpace ∧
      [','].intercalate (Split (getenv "ALLOWED_IPS")) = getenv "ALLOWED_IPS" ∧
      (∀ piece ∈ Split (getenv "ALLOWED_IPS"), ',' ∉ piece) ∧
      (∀ piece ∈ Split (getenv "ALLOWED_IPS"), ∃ l r,
        piece = l ++ TrimSpace piece ++ r ∧
        (∀ ch ∈ l, isSpace ch = true) ∧ (∀ ch ∈ r, isSpace ch = true) ∧
        (∀ ch, (TrimSpace piece).head? = some ch → isSpace ch = false) ∧
        (∀ ch, (TrimSpace piece).getLast? = some ch → isSpace ch = false)) ∧
      ∀ c, isIPAllowed (loadEnvConfig getenv) c = true ↔
        ∃ piece ∈ Split (getenv "ALLOWED_IPS"), c = TrimSpace piece) := by
  have hcfg : (loadEnvConfig getenv).AllowedIPs = loadAllowedIPs (getenv "ALLOWED_IPS") := rfl
  constructor
  · intro h
    have h0 : (loadEnvConfig getenv).AllowedIPs = [] := by
      rw [hcfg]
      simp [loadAllowedIPs, h]
    refine ⟨h0, fun c => ?_⟩
    rw [isIPAllowed_iff]
    exact Or.inl h0
  · intro h
    have h0 : (loadEnvConfig getenv).AllowedIPs =
        (Split (getenv "ALLOWED_IPS")).map TrimSpace := by
      rw [hcfg]
      simp [loadAllowedIPs, h]
    refine ⟨h0, Split_intercalate _, Split_no_comma _, fun piece _ => TrimSpace_spec piece, ?_⟩
    intro c
    rw [isIPAllowed_iff, h0]
    constructor
    · rintro (hnil | hmem)
      · exact absurd (List.map_eq_nil_iff.mp hnil) (Split_ne_nil _)
      · obtain ⟨piece, hp, rfl⟩ := List.mem_map.mp hmem
        exact ⟨piece, hp, rfl⟩
    · rintro ⟨piece, hp, rfl⟩
      exact Or.inr (List.mem_map.mpr ⟨piece, hp, rfl⟩)

/-- C8 at `ALLOWED_IPS=" 10.0.0.5 , 10.0.0.6"`: the allowlist is the two
trimmed addresses. -/
theorem C8_allowlist_is_trimmed_pieces_witness :
    mkGetenv "" "" " 10.0.0.5 , 10.0.0.6" "" "ALLOWED_IPS" ≠ [] ∧
    (loadEnvConfig (mkGetenv "" "" " 10.0.0.5 , 10.0.0.6" "")).AllowedIPs =
      (Split (mkGetenv "" "" " 10.0.0.5 , 10.0.0.6" "" "ALLOWED_IPS")).map TrimSpace ∧
    (Split (mkGetenv "" "" " 10.0.0.5 , 10.0.0.6" "" "ALLOWED_IPS")).map TrimSpace =
      ["10.0.0.5".toList, "10.0.0.6".toList] :=
  ⟨by decide,
    ((C8_allowlist_is_trimmed_pieces (mkGetenv "" "" " 10.0.0.5 , 10.0.0.6" "")).2
      (by decide)).1,
    by decide⟩

/-- C10: a non-empty `ALLOWED_IPS` always gives a non-empty allowlist, so a
client is allowed only if its IP is an entry; when the value holds nothing
but white space and commas every entry is the empty string and every
non-empty client IP is refused. -/
theorem C10_nonempty_setting_never_allows_all (getenv : String → GoString)
    (hne : getenv "ALLOWED_IPS" ≠ []) :
    (loadEnvConfig getenv).AllowedIPs ≠ [] ∧
    (∀ c, isIPAllowed (loadEnvConfig getenv) c = true ↔
      c ∈ (loadEnvConfig getenv).AllowedIPs) ∧
    ((∀ ch ∈ getenv "ALLOWED_IPS", isSpace ch = true ∨ ch = ',') →
      (∀ entry ∈ (loadEnvConfig getenv).AllowedIPs, entry = []) ∧
      ∀ c, c ≠ [] → isIPAllowed (loadEnvConfig getenv) c = false) := by
  have h0 : (loadEnvConfig getenv).AllowedIPs =
      (Split (getenv "ALLOWED_IPS")).map TrimSpace := by
    show loadAllowedIPs (getenv "ALLOWED_IPS") = _
    simp [loadAllowedIPs, hne]
  have hnil : (loadEnvConfig getenv).AllowedIPs ≠ [] := by
    rw [h0]
    intro h
    exact Split_ne_nil _ (List.map_eq_nil_iff.mp h)
  refine ⟨hnil, fun c => ?_, fun hall => ?_⟩
  · rw [isIPAllowed_iff]
    constructor
    · rintro (h | h)
      · exact absurd h hnil
      · exact h
    · exact Or.inr
  · have hentries : ∀ entry ∈ (loadEnvConfig getenv).AllowedIPs, entry = [] := by
      intro entry hentry
      rw [h0] at hentry
      obtain ⟨piece, hp, rfl⟩ := List.mem_map.mp hentry
      apply TrimSpace_all_space
      intro ch hch
      obtain ⟨hin, hcomma⟩ := Split_mem_chars _ piece hp ch hch
      rcases hall ch hin with h | h
      · exact h
      · exact absurd h hcomma
    refine ⟨hentries, fun c hc => ?_⟩
    cases hallow : isIPAllowed (loadEnvConfig getenv) c with
    | false => rfl
    | true =>
      rw [isIPAllowed_iff] at hallow
      rcases hallow with h | h
      · exact absurd h hnil
      · exact absurd (hentries c h) hc

/-- C10 at `ALLOWED_IPS=" ,"`: the allowlist is two empty strings and the
client `10.0.0.5` is refused. -/
theorem C10_nonempty_setting_never_allows_all_witness :
    (loadEnvConfig (mkGetenv "" "" " ," "")).AllowedIPs = [[], []] ∧
    isIPAllowed (loadEnvConfig (mkGetenv "" "" " ," "")) "10.0.0.5".toList = false :=
  ⟨by decide,
    ((C10_nonempty_setting_never_allows_all (mkGetenv "" "" " ," "") (by decide)).2.2
      (by decide)).2 "10.0.0.5".toList (by decide)⟩


/-! ## The relay session -/

/-- C2: a session whose client IP is not allowed logs one "blocked" line with
that IP, closes the client connection and returns; it logs no "accepted"
line, dials nothing and copies nothing. -/
theorem C2_blocked_session (p : TCPProxy) (conn : Conn) (env : SessionEnv) (ip : GoString)
    (haddr : conn.RemoteAddr = .tcp ip) (hblocked : isIPAllowed p ip = false) :
    (handleConnection p conn env).trace = [.logBlocked ip, .close .client] ∧
    (handleConnection p conn env).outcome = .returned ∧
    ((handleConnection p conn env).trace.filter isBlockedLog).length = 1 ∧
    (∀ x, Event.logBlocked x ∈ (handleConnection p conn env).trace → x = ip) ∧
    (∀ x, Event.logAccepted x ∉ (handleConnection p conn env).trace) ∧
    (∀ e ∈ (handleConnection p conn env).trace, isDial e = false ∧ isCopy e = false) ∧
    (handleConnection p conn env).trace.getLast? = some (.close .client) := by
  have ht : handleConnection p conn env =
      { trace := [.logBlocked ip, .close .client], outcome := .returned } := by
    unfold handleConnection
    simp [haddr, hblocked]
  rw [ht]
  refine ⟨rfl, rfl, ?_, ?_, ?_, ?_, rfl⟩
  · simp [isBlockedLog]
  · intro x hx
    simpa using hx
  · intro x hx
    simp at hx
  · intro e he
    simp only [List.mem_cons, List.mem_singleton, List.not_mem_nil, or_false] at he
    rcases he with rfl | rfl <;> exact ⟨rfl, rfl⟩

/-- C2 in the spec's scenario: allowlist `10.0.0.5`, client `10.0.0.6`. -/
theorem C2_blocked_session_witness :
    isIPAllowed scenarioProxy "10.0.0.6".toList = false ∧
    (handleConnection scenarioProxy (tcpClient "10.0.0.6") echoEnv).trace =
      [.logBlocked "10.0.0.6".toList, .close .client] :=
  ⟨by decide,
    (C2_blocked_session scenarioProxy (tcpClient "10.0.0.6") echoEnv "10.0.0.6".toList rfl
      (by decide)).1⟩

/-- C3: a blocked session and a session whose dial failed return after one
`Close` of the client connection and none of the target connection; after a
successful dial the session returns exactly when both copies have returned
(the client being a `*net.TCPConn`), whatever the I/O results and the
interleaving, and then each connection has received exactly one `Close`. -/
theorem C3_each_connection_closed_once (p : TCPProxy) (conn : Conn) (env : SessionEnv)
    (ip : GoString) (haddr : conn.RemoteAddr = .tcp ip) :
    (isIPAllowed p ip = false →
      (handleConnection p conn env).outcome = .returned ∧
      (handleConnection p conn env).trace.count (.close .client) = 1 ∧
      (handleConnection p conn env).trace.count (.close .target) = 0) ∧
    (∀ cause, isIPAllowed p ip = true → env.dial = .failed cause →
      (handleConnection p conn env).outcome = .returned ∧
      (handleConnection p conn env).trace.count (.close .client) = 1 ∧
      (handleConnection p conn env).trace.count (.close .target) = 0) ∧
    (isIPAllowed p ip = true → env.dial = .connected →
      ((handleConnection p conn env).outcome = .returned ↔
        ((ioCopy env.c2t.reads env.c2t.writes).2 = true ∧
          (ioCopy env.t2c.reads env.t2c.writes).2 = true ∧ conn.isTCPConn = true)) ∧
      ((handleConnection p conn env).outcome = .returned →
        (handleConnection p conn env).trace.count (.close .client) = 1 ∧
        (handleConnection p conn env).trace.count (.close .target) = 1)) := by
  refine ⟨fun hblocked => ?_, fun cause hallow hdial => ?_, fun hallow hdial => ?_⟩
  · have ht : handleConnection p conn env =
        { trace := [.logBlocked ip, .close .client], outcome := .returned } := by
      unfold handleConnection
      simp [haddr, hblocked]
    rw [ht]
    exact ⟨rfl, by simp, by simp⟩
  · have ht : handleConnection p conn env =
        { trace := [.logAccepted ip, .dial (targetAddr p), .logDialFailed cause,
            .close .client],
          outcome := .returned } := by
      unfold handleConnection
      simp [haddr, hallow, hdial]
    rw [ht]
    exact ⟨rfl, by simp, by simp⟩
  · have hbody := runCopies_isCopy conn env
    rcases handleConnection_connected p conn env ip haddr hallow hdial with
      ⟨h2, hb, ho, _⟩ | ⟨h1, h2, hb, ho, ht⟩ | ⟨h12, _, ho, _⟩
    · rw [ho]
      simp [hb]
    · rw [ho, ht]
      refine ⟨by simp [h1, h2, hb], fun _ => ?_⟩
      have hc : (runCopies conn env).count (Event.close .client) = 0 :=
        List.count_eq_zero.mpr (copy_no_close _ hbody _)
      have hc2 : (runCopies conn env).count (Event.close .target) = 0 :=
        List.count_eq_zero.mpr (copy_no_close _ hbody _)
      simp [List.count_append, hc, hc2]
    · rw [ho]
      refine ⟨?_, fun h => absurd h (by decide)⟩
      constructor
      · intro h
        exact absurd h (by decide)
      · rintro ⟨h1, h2, _⟩
        rcases h12 with h | h
        · rw [h1] at h
          exact absurd h (by decide)
        · rw [h2] at h
          exact absurd h (by decide)

/-- C3 on a relayed session (both connections closed once) and on the
spec's blocked client. -/
theorem C3_each_connection_closed_once_witness :
    (handleConnection scenarioProxy (tcpClient "10.0.0.5") echoEnv).outcome = .returned ∧
    ((handleConnection scenarioProxy (tcpClient "10.0.0.5") echoEnv).trace.count
        (.close .client) = 1 ∧
      (handleConnection scenarioProxy (tcpClient "10.0.0.5") echoEnv).trace.count
        (.close .target) = 1) ∧
    (handleConnection scenarioProxy (tcpClient "10.0.0.5") refusedEnv).trace.count
      (.close .target) = 0 :=
  ⟨by decide,
    ((C3_each_connection_closed_once scenarioProxy (tcpClient "10.0.0.5") echoEnv
      "10.0.0.5".toList rfl).2.2 (by decide) rfl).2 (by decide),
    ((C3_each_connection_closed_once scenarioProxy (tcpClient "10.0.0.5") refusedEnv
      "10.0.0.5".toList rfl).2.1 "connection refused".toList (by decide) rfl).2.2⟩

/-- C4, as the claim states it, fails: for a client whose remote address is
not a TCP address the session does not return, it panics, and it logs
nothing. -/
theorem C4_panic_escapes :
    (handleConnection scenarioProxy unixClient echoEnv).outcome = .panicked ∧
    ¬ ((handleConnection scenarioProxy unixClient echoEnv).outcome = .returned) ∧
    ¬ (∃ e ∈ (handleConnection scenarioProxy unixClient echoEnv).trace, isLog e = true) := by
  decide

/-- C4, amended: for a client whose remote address is not a TCP address the
type assertion panics, the deferred `Close` closes the client connection
once and the panic leaves `handleConnection`; nothing is logged, no
authorization check, dial or copy is performed. -/
theorem C4_non_tcp_peer_amended (p : TCPProxy) (conn : Conn) (env : SessionEnv)
    (haddr : conn.RemoteAddr = .other) :
    (handleConnection p conn env).outcome = .panicked ∧
    (handleConnection p conn env).trace = [.panic, .close .client] ∧
    (handleConnection p conn env).trace.count (.close .client) = 1 ∧
    (∀ e ∈ (handleConnection p conn env).trace,
      isLog e = false ∧ isDial e = false ∧ isCopy e = false) := by
  have ht : handleConnection p conn env =
      { trace := [.panic, .close .client], outcome := .panicked } := by
    unfold handleConnection
    simp [haddr]
  rw [ht]
  refine ⟨rfl, rfl, by simp, ?_⟩
  intro e he
  simp only [List.mem_cons, List.mem_singleton, List.not_mem_nil, or_false] at he
  rcases he with rfl | rfl <;> exact ⟨rfl, rfl, rfl⟩

/-- C4, amended, on a Unix-domain client. -/
theorem C4_non_tcp_peer_amended_witness :
    unixClient.RemoteAddr = .other ∧
    (handleConnection scenarioProxy unixClient echoEnv).trace = [.panic, .close .client] :=
  ⟨rfl, (C4_non_tcp_peer_amended scenarioProxy unixClient echoEnv rfl).2.1⟩


/-- C5: in a session whose dial succeeded, a full `Close` of either connection
comes only after `wg.Wait()` has returned, hence after both copies have
returned, after the client-to-target goroutine half-closed the target
(`CloseWrite` on the target), after the target-to-client goroutine
half-closed the client (`CloseWrite` on the client) and after both goroutines
called `wg.Done()`; `wg.Wait()` itself returns only after both `wg.Done()`
calls and before any `Close`; and in each copy goroutine the return of
`io.Copy` is followed at once by the `CloseWrite` of its own destination,
the target for client-to-target and the client for target-to-client, and
then by `wg.Done()`, with no full `Close` in between. -/
theorem C5_close_only_after_both_copies (p : TCPProxy) (conn : Conn) (env : SessionEnv)
    (ip : GoString) (haddr : conn.RemoteAddr = .tcp ip) (hallow : isIPAllowed p ip = true)
    (hdial : env.dial = .connected) :
    (∀ pre c post, (handleConnection p conn env).trace = pre ++ Event.close c :: post →
      Event.waitReturned ∈ pre ∧
      Event.g .c2t .copyReturned ∈ pre ∧ Event.g .c2t (.closeWrite .target) ∈ pre ∧
      Event.g .c2t .done ∈ pre ∧
      Event.g .t2c .copyReturned ∈ pre ∧ Event.g .t2c (.closeWrite .client) ∈ pre ∧
      Event.g .t2c .done ∈ pre) ∧
    (∀ pre post, (handleConnection p conn env).trace = pre ++ Event.waitReturned :: post →
      Event.g .c2t .done ∈ pre ∧ Event.g .t2c .done ∈ pre ∧ ∀ c, Event.close c ∉ pre) ∧
    (conn.isTCPConn = true →
      (Event.g .c2t .copyReturned ∈ (handleConnection p conn env).trace →
        ∃ steps, (∀ e ∈ steps, isReadWrite e = true) ∧
          proj .c2t (handleConnection p conn env).trace =
            steps ++ [.copyReturned, .closeWrite .target, .done]) ∧
      (Event.g .t2c .copyReturned ∈ (handleConnection p conn env).trace →
        ∃ steps, (∀ e ∈ steps, isReadWrite e = true) ∧
          proj .t2c (handleConnection p conn env).trace =
            steps ++ [.copyReturned, .closeWrite .client, .done])) := by
  obtain ⟨h1, h2, h3⟩ := close_after_join p conn env ip haddr hallow hdial
  refine ⟨fun pre c post hsplit => ?_, fun pre post hsplit => ?_, fun htcp => ⟨?_, ?_⟩⟩
  · obtain ⟨hw, hd⟩ := h1 pre c post hsplit
    obtain ⟨a1, a2, a3⟩ := hd .c2t
    obtain ⟨b1, b2, b3⟩ := hd .t2c
    exact ⟨hw, a1, a2, a3, b1, b2, b3⟩
  · obtain ⟨hd, hc⟩ := h2 pre post hsplit
    exact ⟨hd .c2t, hd .t2c, hc⟩
  · intro hret
    exact h3 htcp .c2t hret
  · intro hret
    exact h3 htcp .t2c hret

/-- C5 on a relayed session: the client-to-target goroutine half-closes the
target right after its copy, the target-to-client goroutine half-closes the
client right after its own, and the two closes come after both. -/
theorem C5_close_only_after_both_copies_witness :
    isIPAllowed scenarioProxy "10.0.0.5".toList = true ∧
    proj .c2t (handleConnection scenarioProxy (tcpClient "10.0.0.5") echoEnv).trace =
      [.read [1, 2], .write [1, 2], .read [3], .write [3], .copyReturned,
        .closeWrite .target, .done] ∧
    proj .t2c (handleConnection scenarioProxy (tcpClient "10.0.0.5") echoEnv).trace =
      [.read [7], .write [7], .read [], .copyReturned, .closeWrite .client, .done] ∧
    (∃ steps, (∀ e ∈ steps, isReadWrite e = true) ∧
      proj .c2t (handleConnection scenarioProxy (tcpClient "10.0.0.5") echoEnv).trace =
        steps ++ [.copyReturned, .closeWrite .target, .done]) ∧
    (∃ steps, (∀ e ∈ steps, isReadWrite e = true) ∧
      proj .t2c (handleConnection scenarioProxy (tcpClient "10.0.0.5") echoEnv).trace =
        steps ++ [.copyReturned, .closeWrite .client, .done]) ∧
    Event.g .t2c (.closeWrite .client) ∈
      (handleConnection scenarioProxy (tcpClient "10.0.0.5") echoEnv).trace.take 16 ∧
    Event.g .c2t (.closeWrite .target) ∈
      (handleConnection scenarioProxy (tcpClient "10.0.0.5") echoEnv).trace.take 16 :=
  ⟨by decide, by decide, by decide,
    ((C5_close_only_after_both_copies scenarioProxy (tcpClient "10.0.0.5") echoEnv
      "10.0.0.5".toList rfl (by decide) rfl).2.2 rfl).1 (by decide),
    ((C5_close_only_after_both_copies scenarioProxy (tcpClient "10.0.0.5") echoEnv
      "10.0.0.5".toList rfl (by decide) rfl).2.2 rfl).2 (by decide),
    ((C5_close_only_after_both_copies scenarioProxy (tcpClient "10.0.0.5") echoEnv
      "10.0.0.5".toList rfl (by decide) rfl).1
      ((handleConnection scenarioProxy (tcpClient "10.0.0.5") echoEnv).trace.take 16)
      .target [.close .client] (by decide)).2.2.2.2.2.1,
    ((C5_close_only_after_both_copies scenarioProxy (tcpClient "10.0.0.5") echoEnv
      "10.0.0.5".toList rfl (by decide) rfl).1
      ((handleConnection scenarioProxy (tcpClient "10.0.0.5") echoEnv).trace.take 16)
      .target [.close .client] (by decide)).2.2.1⟩

/-- C6: in a session whose dial succeeded, when the source of a direction
delivers its bytes in any chunks and then end-of-input, and every write to
the destination succeeds in full, the bytes written to the destination are
exactly the source's bytes, in order, whatever happens in the other
direction and whatever the interleaving. -/
theorem C6_relay_delivers_exact_bytes (p : TCPProxy) (conn : Conn) (env : SessionEnv)
    (ip : GoString) (haddr : conn.RemoteAddr = .tcp ip) (hallow : isIPAllowed p ip = true)
    (hdial : env.dial = .connected) (htcp : conn.isTCPConn = true) (d : Dir)
    (chunks : List (List Byte)) (last : List Byte)
    (hreads : (env.copy d).reads = cleanReads chunks last)
    (hwrites : ∀ w ∈ (env.copy d).writes, w = .ok) :
    bytesWritten d (handleConnection p conn env).trace = chunks.flatten ++ last := by
  unfold bytesWritten
  rw [proj_trace_connected p conn env ip haddr hallow hdial htcp d]
  obtain ⟨hret, hbytes⟩ := ioCopy_clean chunks last (env.copy d).writes hwrites
  unfold copyGoroutine
  rw [hreads]
  simp only [hret, if_true]
  rw [writtenBytes_append, hbytes]
  simp [writtenBytes]

/-- C6 on a relayed session: the target receives `[1, 2, 3]` and the client
`[7]`. -/
theorem C6_relay_delivers_exact_bytes_witness :
    bytesWritten .c2t (handleConnection scenarioProxy (tcpClient "10.0.0.5") echoEnv).trace =
      [[1, 2]].flatten ++ [3] ∧
    bytesWritten .t2c (handleConnection scenarioProxy (tcpClient "10.0.0.5") echoEnv).trace =
      [[7]].flatten ++ [] :=
  ⟨C6_relay_delivers_exact_bytes scenarioProxy (tcpClient "10.0.0.5") echoEnv
      "10.0.0.5".toList rfl (by decide) rfl rfl .c2t [[1, 2]] [3] rfl (by decide),
    C6_relay_delivers_exact_bytes scenarioProxy (tcpClient "10.0.0.5") echoEnv
      "10.0.0.5".toList rfl (by decide) rfl rfl .t2c [[7]] [] rfl (by decide)⟩

/-! ## The listener loop -/

/-- C9: `Start` returns, with an error, exactly when the bind fails, and then
before any accept; after a successful bind it is at an `Accept` after any
number of accepts: each accept is one `Accept` call followed by one log line
(an error) or by one `go handleConnection` (a connection), in the order of
the accepts, and further accepts only extend what happened. -/
theorem C9_start_returns_only_on_bind_failure (p : TCPProxy) (listenPort : Int)
    (listen : ListenRes) (accepts : List AcceptRes) :
    ((∃ err, (Start p listenPort listen accepts).state = .returned err) ↔
      ∃ cause, listen = .failed cause) ∧
    (∀ cause, listen = .failed cause →
      (Start p listenPort listen accepts).trace = [.listen listenPort] ∧
      acceptCalls (Start p listenPort listen accepts).trace = 0 ∧
      spawned (Start p listenPort listen accepts).trace = []) ∧
    (listen = .bound →
      (Start p listenPort listen accepts).state = .accepting ∧
      (Start p listenPort listen accepts).trace =
        .listen listenPort :: .logListening listenPort :: Start.loop accepts ∧
      acceptCalls (Start p listenPort listen accepts).trace = accepts.length ∧
      loggedAcceptErrors (Start p listenPort listen accepts).trace = acceptErrors accepts ∧
      spawned (Start p listenPort listen accepts).trace = acceptedConns accepts ∧
      (∀ cause, Start.loop [.err cause] = [.accept, .logAcceptError cause]) ∧
      (∀ c, Start.loop [.conn c] = [.accept, .spawn c]) ∧
      ∀ more, (Start p listenPort listen (accepts ++ more)).state = .accepting ∧
        (Start p listenPort listen (accepts ++ more)).trace =
          (Start p listenPort listen accepts).trace ++ Start.loop more) := by
  obtain ⟨o1, o2, o3⟩ := Start_loop_observed accepts
  cases listen with
  | failed cause =>
    refine ⟨⟨fun _ => ⟨cause, rfl⟩, fun _ => ⟨_, rfl⟩⟩, fun c _ => ⟨rfl, rfl, rfl⟩,
      fun h => ?_⟩
    cases h
  | bound =>
    refine ⟨⟨?_, ?_⟩, fun c h => ?_, fun _ => ?_⟩
    · rintro ⟨err, h⟩
      simp [Start] at h
    · rintro ⟨cause, h⟩
      cases h
    · cases h
    · refine ⟨rfl, rfl, ?_, ?_, ?_, fun _ => rfl, fun _ => rfl, fun more => ⟨rfl, ?_⟩⟩
      · rw [← o1]
        simp [Start, acceptCalls]
      · rw [← o2]
        simp [Start, loggedAcceptErrors]
      · rw [← o3]
        simp [Start, spawned]
      · simp [Start, Start_loop_append]

/-- C9 on a failing bind, and on a bind followed by an accept error and an
accepted connection. -/
theorem C9_start_returns_only_on_bind_failure_witness :
    (Start scenarioProxy 9001 (.failed "address already in use".toList) []).trace =
      [.listen 9001] ∧
    (Start scenarioProxy 9001 .bound
      [.err "too many open files".toList, .conn (tcpClient "10.0.0.5")]).state = .accepting ∧
    (Start scenarioProxy 9001 .bound
      [.err "too many open files".toList, .conn (tcpClient "10.0.0.5")]).trace =
      [.listen 9001, .logListening 9001, .accept,
        .logAcceptError "too many open files".toList, .accept,
        .spawn (tcpClient "10.0.0.5")] :=
  ⟨((C9_start_returns_only_on_bind_failure scenarioProxy 9001
      (.failed "address already in use".toList) []).2.1 _ rfl).1,
    ((C9_start_returns_only_on_bind_failure scenarioProxy 9001 .bound
      [.err "too many open files".toList, .conn (tcpClient "10.0.0.5")]).2.2 rfl).1,
    ((C9_start_returns_only_on_bind_failure scenarioProxy 9001 .bound
      [.err "too many open files".toList, .conn (tcpClient "10.0.0.5")]).2.2 rfl).2.1⟩

end ProxyGo


